import Mathlib

/-!
Verification of the snippets Sphinx extension (snippets.py).

Lines of text are modelled as `List Char` (one Python `str` per source line,
without the trailing newline; all operations used by the code are unaffected
by that choice). Machine behaviour of the host runtime that the code relies
on (Python 2 string methods, `list.remove`, and the hash-table iteration
order of `dict`) is embedded explicitly below.
-/

namespace Snippets

/-- Python 2 `str.isspace` on a single byte (C locale): space, tab,
newline, carriage return, vertical tab, form feed. -/
def pyIsSpace (c : Char) : Bool :=
  c = ' ' || c = '\t' || c = '\n' || c = '\r' || c = Char.ofNat 11 || c = Char.ofNat 12

/-- Python `str.lstrip()` with no argument: drop leading whitespace. -/
def pyLstrip (l : List Char) : List Char :=
  l.dropWhile pyIsSpace

/-- Python `str.rstrip()` with no argument: drop trailing whitespace. -/
def pyRstrip (l : List Char) : List Char :=
  (l.reverse.dropWhile pyIsSpace).reverse

/-- Python `str.strip()` with no argument. -/
def pyStrip (l : List Char) : List Char :=
  pyLstrip (pyRstrip l)

/-- Helper for `pySplit`: accumulates the current token (reversed). -/
def pySplitAux : List Char → List Char → List (List Char)
  | [], acc => if acc.isEmpty then [] else [acc.reverse]
  | c :: rest, acc =>
    if pyIsSpace c then
      if acc.isEmpty then pySplitAux rest [] else acc.reverse :: pySplitAux rest []
    else pySplitAux rest (c :: acc)

/-- Python `str.split()` with no argument: split on runs of whitespace,
yielding no empty tokens. -/
def pySplit (l : List Char) : List (List Char) :=
  pySplitAux l []

/-- Python substring containment, `needle in hay`. -/
def containsSub (needle : List Char) : List Char → Bool
  | [] => needle.isEmpty
  | c :: rest => needle.isPrefixOf (c :: rest) || containsSub needle rest

/-- Helper for `expandtabs8`, tracking the current column. -/
def expandtabsAux : List Char → Nat → List Char
  | [], _ => []
  | c :: rest, col =>
    if c = '\t' then
      List.replicate (8 - col % 8) ' ' ++ expandtabsAux rest (col + (8 - col % 8))
    else if c = '\n' ∨ c = '\r' then
      c :: expandtabsAux rest 0
    else
      c :: expandtabsAux rest (col + 1)

/-- Python `str.expandtabs(8)`: each tab advances to the next multiple of
8 columns; newline and carriage return reset the column. -/
def expandtabs8 (l : List Char) : List Char :=
  expandtabsAux l 0

/-- Decimal rendering of a line number, Python `repr` of a small int. -/
def natChars (n : Nat) : List Char :=
  (Nat.repr n).data

/-- Python `"\n".join`. -/
def joinNL (ls : List (List Char)) : List Char :=
  List.intercalate ['\n'] ls

/-- The single-quote character (used by Python `repr` of a plain string). -/
def squote : Char := Char.ofNat 39

/-- Python `repr` of a plain string (no embedded quotes or escapes, which
holds for every key this extension formats). -/
def pyStrRepr (s : List Char) : List Char :=
  squote :: (s ++ [squote])

/-- Python `str` of a list of strings, as produced by `format` on a list. -/
def pyStrListRepr (l : List (List Char)) : List Char :=
  '[' :: List.intercalate ", ".data (l.map pyStrRepr) ++ [']']

/-- Python exceptions that the code under verification can raise. -/
inductive PyExn where
  | sphinxError (msg : List Char)
  | valueError (msg : List Char)
  | attributeError (msg : List Char)
deriving DecidableEq

/-- `Language` from snippets.py. The constructor copies the configuration
record onto the object; `key`, `name`, `highlight` and `line_comment` are
the fields the rest of the code reads, and the optional GitHub triple
drives the derived remote-source capability. -/
structure Language where
  key : List Char
  name : List Char
  highlight : List Char
  line_comment : List Char
  gh_repository : Option (List Char)
  gh_branch : Option (List Char)
  gh_path : Option (List Char)
deriving DecidableEq

/-- `self.has_remote_source`: all three GitHub fields are present. -/
def Language.has_remote_source (l : Language) : Bool :=
  l.gh_repository.isSome && l.gh_branch.isSome && l.gh_path.isSome

/-- `Language.get_raw_url`: `None` without a remote source, otherwise the
raw.githubusercontent.com URL built from the (repository, branch, path)
triple. -/
def Language.get_raw_url (l : Language) : Option (List Char) :=
  if !l.has_remote_source then none
  else some ("https://raw.githubusercontent.com/".data ++ l.gh_repository.getD []
    ++ "/".data ++ l.gh_branch.getD [] ++ "/".data ++ l.gh_path.getD [])

/-- `Language.get_pretty_url(lineno=None)`: `None` without a remote source,
otherwise the github.com blob URL; a line anchor is appended only when
`lineno` is truthy (Python `if lineno:`, so a zero line number adds no
anchor). -/
def Language.get_pretty_url (l : Language) (lineno : Option Nat) : Option (List Char) :=
  if !l.has_remote_source then none
  else
    let url := "https://github.com/".data ++ l.gh_repository.getD []
      ++ "/blob/".data ++ l.gh_branch.getD [] ++ "/".data ++ l.gh_path.getD []
    if lineno.getD 0 = 0 then some url
    else some (url ++ "#L".data ++ natChars (lineno.getD 0))

/-- `SingleSnippetNode`: the data the node constructor stores. The
`source_url` field is set only when the constructor receives a truthy
line number, and then holds the result of `get_pretty_url`. The body is
the newline-join of the content lines, each right-stripped. -/
structure SingleSnippetNode where
  key : List Char
  language : List Char
  language_name : List Char
  source_url : Option (Option (List Char))
  body : List Char
deriving DecidableEq

/-- The `SingleSnippetNode` constructor applied to a list of content lines
(the list branch of its `isinstance` test, which is the one every caller
in this extension with claims at stake uses). -/
def mkSingleSnippetNode (key : List Char) (language : Language)
    (content : List (List Char)) (lineno : Option Nat) : SingleSnippetNode :=
  { key := key
    language := language.key
    language_name := language.name
    source_url := if lineno.getD 0 = 0 then none else some (language.get_pretty_url lineno)
    body := joinNL (content.map pyRstrip) }

/-- `SnippetNodeBuilder`: the in-progress snippet while scanning between a
begin marker and an end marker. -/
structure SnippetNodeBuilder where
  key : List Char
  language : Language
  lineno : Nat
  lines : List (List Char)
deriving DecidableEq

/-- `SnippetNodeBuilder.append`: collect one line, tabs expanded to
8-column stops. -/
def SnippetNodeBuilder.append (b : SnippetNodeBuilder) (line : List Char) : SnippetNodeBuilder :=
  { b with lines := b.lines ++ [expandtabs8 line] }

/-- `SnippetNodeBuilder.to_node`: for a non-empty collected body, count the
leading whitespace of the first collected line and drop that many leading
characters from every collected line; an empty body stays empty. -/
def SnippetNodeBuilder.to_node (b : SnippetNodeBuilder) : SingleSnippetNode :=
  let justified :=
    match b.lines with
    | [] => []
    | first :: _ =>
      let spaces := first.length - (pyLstrip first).length
      b.lines.map (List.drop spaces)
  mkSingleSnippetNode b.key b.language justified (some b.lineno)

/-- The begin marker literal, `line_comment` followed by " snippet-start". -/
def beginString (l : Language) : List Char :=
  l.line_comment ++ " snippet-start".data

/-- The end marker literal. -/
def endString (l : Language) : List Char :=
  l.line_comment ++ " snippet-end".data

/-- The ignore marker literal. -/
def ignoreString (l : Language) : List Char :=
  l.line_comment ++ " snippet-ignore".data

/-- The warning text for a begin marker lacking a third token. -/
def missingNameMsg (lang : Language) (lineno : Nat) (line : List Char) : List Char :=
  "Missing snippet name in ".data ++ lang.key ++ " - line ".data
    ++ natChars lineno ++ " - ".data ++ line

/-- One iteration of the `SnippetNodeBuilder.parse` loop: given the current
line number and optional active builder, process one line, returning the
new builder state, the nodes yielded, and the warnings emitted. The
branch order mirrors the if/elif chain of the source exactly. -/
def parseLine (lang : Language) (lineno : Nat) (builder : Option SnippetNodeBuilder)
    (line : List Char) :
    Option SnippetNodeBuilder × List SingleSnippetNode × List (List Char) :=
  if containsSub (endString lang) line && builder.isSome then
    (none, (match builder with | some b => [b.to_node] | none => []), [])
  else if !containsSub (ignoreString lang) line && builder.isSome then
    (builder.map (fun b => b.append line), [], [])
  else if containsSub (beginString lang) line then
    match pySplit (pyStrip line) with
    | _ :: _ :: key :: _ => (some ⟨key, lang, lineno, []⟩, [], [])
    | _ => (builder, [], [missingNameMsg lang lineno line])
  else (builder, [], [])

/-- The `SnippetNodeBuilder.parse` loop from a given line number and
builder state: yielded nodes and emitted warnings, in order. A builder
still open at end of input is dropped. -/
def parseGo (lang : Language) : Nat → Option SnippetNodeBuilder → List (List Char) →
    List SingleSnippetNode × List (List Char)
  | _, _, [] => ([], [])
  | n, b, line :: rest =>
    let r := parseLine lang (n + 1) b line
    let t := parseGo lang (n + 1) r.1 rest
    (r.2.1 ++ t.1, r.2.2 ++ t.2)

/-- `SnippetNodeBuilder.parse(code_file, language, app)`: scan the whole
line stream starting with line number 0 and no active builder. -/
def SnippetNodeBuilder.parse (lang : Language) (code_file : List (List Char)) :
    List SingleSnippetNode × List (List Char) :=
  parseGo lang 0 none code_file

/-- Final builder state after the parse loop consumes a list of lines. -/
def finalBuilder (lang : Language) : Nat → Option SnippetNodeBuilder → List (List Char) →
    Option SnippetNodeBuilder
  | _, b, [] => b
  | n, b, line :: rest => finalBuilder lang (n + 1) (parseLine lang (n + 1) b line).1 rest

/-- Unsigned value of the CPython 2 (64-bit, unrandomized) hash of a byte
string: `h` starts as the first byte shifted left 7, every byte is folded
in as `h = (1000003*h) xor byte` with 64-bit wraparound, the length is
xor-ed in, and the reserved value -1 becomes -2. The empty string hashes
to 0. Modelled from the host runtime because `dict` iteration order,
which the extension relies on implicitly, is determined by these hashes. -/
def py2StrHash (s : List Char) : Nat :=
  match s with
  | [] => 0
  | c :: _ =>
    let h := s.foldl (fun h c => ((1000003 * h) ^^^ c.toNat) % 2 ^ 64) ((c.toNat <<< 7) % 2 ^ 64)
    let h := h ^^^ s.length
    if h = 2 ^ 64 - 1 then 2 ^ 64 - 2 else h

/-- Open-addressing probe of the CPython 2 dict (8 slots, as holds for any
dict with at most 5 entries and no deletions): start at `hash mod 8`, and
while the slot is occupied step with `i = 5*i + perturb + 1` (64-bit) and
`perturb = perturb >>> 5`. The fuel bound is never reached for tables
with a free slot. -/
def py2ProbeGo : Nat → Nat → Nat → List Nat → Nat
  | 0, i, _, _ => i % 8
  | fuel + 1, i, perturb, used =>
    if i % 8 ∈ used then
      py2ProbeGo fuel ((5 * i + perturb + 1) % 2 ^ 64) (perturb / 32) used
    else i % 8

/-- Slot chosen for a new key given the occupied slots. -/
def py2FindSlot (hash : Nat) (used : List Nat) : Nat :=
  py2ProbeGo 64 (hash % 8) hash used

/-- One entry of the modelled CPython 2 dict mapping language keys to
`Language` values: the table slot the entry occupies, its key, and its
value. -/
structure Py2Entry where
  slot : Nat
  key : List Char
  value : Language
deriving DecidableEq

/-- The modelled `env.snippet_languages` dict: a collection of slotted
entries. Iteration (`keys`, `itervalues`) scans slots in ascending
order, which for CPython 2 is hash order, not insertion order. -/
abbrev Py2Dict := List Py2Entry

/-- `d[k] = v` on the modelled dict: an existing equal key keeps its slot
and has its value replaced (so a duplicate configuration key silently
wins last); a new key takes the slot its hash probes to. -/
def py2DictInsert (d : Py2Dict) (k : List Char) (v : Language) : Py2Dict :=
  if d.any (fun e => e.key == k) then
    d.map (fun e => if e.key = k then { e with value := v } else e)
  else
    ({ slot := py2FindSlot (py2StrHash k) (d.map (fun e => e.slot)), key := k, value := v } : Py2Entry) :: d

/-- The entries in table order: ascending slot, the order every CPython 2
dict iterator uses. -/
def py2DictEntries (d : Py2Dict) : List Py2Entry :=
  ((List.range 8).map (fun i => d.filter (fun e => e.slot == i))).flatten

/-- `dict.keys()` in table order. -/
def py2DictKeys (d : Py2Dict) : List (List Char) :=
  (py2DictEntries d).map (fun e => e.key)

/-- `dict.itervalues()` in table order. -/
def py2DictValues (d : Py2Dict) : List Language :=
  (py2DictEntries d).map (fun e => e.value)

/-- The build-scoped state the extension keeps on the Sphinx environment:
the append-only snippet store, the recorded display keys, the language
registry dict, and the fetch-memoization flag (`none` models the
attribute being absent, as it is before the first pull). -/
structure BuildEnv where
  snippet_all : List SingleSnippetNode
  snippet_display : List (List Char)
  snippet_languages : Py2Dict
  snippet_pulled : Option Bool
deriving DecidableEq

/-- `initialize(app)` from snippets.py: resets the store, and either
populates the language dict from the configured list (in order, one
`Language` per record) or, when the `snippet_language_list` attribute is
absent from the configuration entirely, raises `SphinxError`. The
argument is `none` exactly when the attribute is absent. -/
def initEnv (cfg : Option (List Language)) : Except PyExn BuildEnv :=
  match cfg with
  | none =>
    .error (.sphinxError ("No configuration found for snippets languages! Please add snippet_language_list to conf.py".data))
  | some configs =>
    .ok { snippet_all := []
          snippet_display := []
          snippet_languages := configs.foldl (fun d lang => py2DictInsert d lang.key lang) []
          snippet_pulled := none }

/-- Outcome of one `urllib2.urlopen` call: either the fetched line stream,
or a `urllib2.URLError`. An HTTP-level failure (`HTTPError`) carries a
status code; a plain transport failure (DNS, refused connection, ...)
carries only a reason and has no `code` attribute. -/
inductive FetchOutcome where
  | success (lines : List (List Char))
  | urlError (code : Option Nat) (reason : List Char)
deriving DecidableEq

/-- The warning text for a failed remote fetch. Formatting it reads
`e.code`, which exists only for HTTP errors. -/
def fetchFailMsg (key : List Char) (code : Nat) (reason : List Char) : List Char :=
  "Failed to get remote snippets for ".data ++ key ++ ": status ".data
    ++ natChars code ++ " - ".data ++ reason

/-- `pull_single_language(app, env, language)`: no remote location means a
silent (debug-level) skip; a fetch returning lines runs them through the
snippet scanner; a caught `URLError` is formatted into a warning — which
raises `AttributeError` when the exception has no `code` attribute — and
the language is skipped. The result is the list of nodes to extend the
store with, the warnings emitted, and the URLs actually requested. -/
def pull_single_language (fetch : List Char → FetchOutcome) (lang : Language) :
    Except PyExn (List SingleSnippetNode × List (List Char) × List (List Char)) :=
  match lang.get_raw_url with
  | none => .ok ([], [], [])
  | some url =>
    match fetch url with
    | .success lines =>
      let r := SnippetNodeBuilder.parse lang lines
      .ok (r.1, r.2, [url])
    | .urlError none _ =>
      .error (.attributeError ("URLError instance has no attribute code".data))
    | .urlError (some c) reason =>
      .ok ([], [fetchFailMsg lang.key c reason], [url])

/-- The per-language loop of `pull_snippet_content`, over the languages in
dict iteration order; an uncaught exception aborts the remaining
languages. -/
def pullLangs (fetch : List Char → FetchOutcome) :
    List Language → Except PyExn (List SingleSnippetNode × List (List Char) × List (List Char))
  | [] => .ok ([], [], [])
  | lang :: rest =>
    match pull_single_language fetch lang with
    | .error e => .error e
    | .ok (ns, ws, us) =>
      match pullLangs fetch rest with
      | .error e => .error e
      | .ok (ns2, ws2, us2) => .ok (ns ++ ns2, ws ++ ws2, us ++ us2)

/-- `pull_snippet_content(app, env)`: if the `snippet_pulled` attribute is
present and truthy the call returns at once; otherwise every language in
the registry (dict iteration order) is pulled, the store is extended,
and the flag is set. Returns the updated environment, the warnings, and
the URLs fetched. -/
def pull_snippet_content (fetch : List Char → FetchOutcome) (env : BuildEnv) :
    Except PyExn (BuildEnv × List (List Char) × List (List Char)) :=
  if env.snippet_pulled.getD false then .ok (env, [], [])
  else
    match pullLangs fetch (py2DictValues env.snippet_languages) with
    | .error e => .error e
    | .ok (ns, ws, us) =>
      .ok ({ env with snippet_all := env.snippet_all ++ ns, snippet_pulled := some true }, ws, us)

/-- Python `list.remove(x)`: delete the first element equal to `x`, or
fail with `ValueError` (here `none`) when no element matches. -/
def listRemove (x : List Char) : List (List Char) → Option (List (List Char))
  | [] => none
  | y :: rest => if y = x then some rest else (listRemove x rest).map (y :: ·)

/-- The warning text for a display key with missing languages. -/
def missingLangsMsg (key : List Char) (missing : List (List Char)) : List Char :=
  "Missing languages for snippet key ".data ++ [squote] ++ key ++ [squote]
    ++ ": ".data ++ pyStrListRepr missing

/-- The per-snippet loop of `resolve_snippets` for one display node:
snippets with a different key are skipped; a matching snippet has its
language removed from the missing list (raising `ValueError` when it is
not there) and is appended to the children of the node. -/
def resolveLoop (key : List Char) :
    List SingleSnippetNode → List (List Char) → List SingleSnippetNode →
    Except PyExn (List SingleSnippetNode × List (List Char))
  | [], missing, acc => .ok (acc, missing)
  | s :: rest, missing, acc =>
    if s.key = key then
      match listRemove s.language missing with
      | none => .error (.valueError ("list.remove(x): x not in list".data))
      | some m => resolveLoop key rest m (acc ++ [s])
    else resolveLoop key rest missing acc

/-- `resolve_snippets` restricted to one `SnippetDisplayNode` with the
given key: scan the whole store against the configured language keys,
then emit one warning when languages are missing. Returns the children
appended to the node, the missing list, and the warnings emitted. -/
def resolve_node (langs : List (List Char)) (store : List SingleSnippetNode) (key : List Char) :
    Except PyExn (List SingleSnippetNode × List (List Char) × List (List Char)) :=
  match resolveLoop key store langs [] with
  | .error e => .error e
  | .ok (children, missing) =>
    .ok (children, missing, if 0 < missing.length then [missingLangsMsg key missing] else [])

/-! Helper lemmas about the scanner. -/

theorem expandtabsAux_id {l : List Char} (h : '\t' ∉ l) : ∀ col, expandtabsAux l col = l := by
  induction l with
  | nil => intro _; rfl
  | cons c rest ih =>
    intro col
    have hc : ¬ c = '\t' := fun e => h (by simp [e])
    have hr : '\t' ∉ rest := fun m => h (List.mem_cons_of_mem _ m)
    simp only [expandtabsAux, if_neg hc]
    split
    · rw [ih hr]
    · rw [ih hr]

theorem expandtabs8_id {l : List Char} (h : '\t' ∉ l) : expandtabs8 l = l :=
  expandtabsAux_id h 0

theorem pyLstrip_spaces_append {ind : List Char} (h : ∀ c ∈ ind, c = ' ') (t : List Char) :
    pyLstrip (ind ++ t) = pyLstrip t := by
  induction ind with
  | nil => rfl
  | cons c rest ih =>
    have hc : c = ' ' := h c (by simp)
    have hr : ∀ x ∈ rest, x = ' ' := fun x hx => h x (by simp [hx])
    subst hc
    have step : pyLstrip ((' ' :: rest) ++ t) = pyLstrip (rest ++ t) := by
      simp [pyLstrip, List.dropWhile, pyIsSpace]
    rw [step, ih hr]

theorem pyLstrip_eq_self {t : List Char}
    (h : t = [] ∨ ∃ c cs, t = c :: cs ∧ pyIsSpace c = false) : pyLstrip t = t := by
  rcases h with rfl | ⟨c, cs, rfl, hc⟩
  · rfl
  · simp [pyLstrip, List.dropWhile, hc]

theorem foldl_append_lines (ls : List (List Char)) : ∀ b : SnippetNodeBuilder,
    ls.foldl SnippetNodeBuilder.append b =
      { b with lines := b.lines ++ ls.map expandtabs8 } := by
  induction ls with
  | nil => intro b; simp
  | cons l ls ih =>
    intro b
    simp only [List.foldl_cons, List.map_cons]
    rw [ih]
    simp [SnippetNodeBuilder.append]

theorem parseGo_cons (lang : Language) (n : Nat) (b : Option SnippetNodeBuilder)
    (line : List Char) (rest : List (List Char)) :
    parseGo lang n b (line :: rest) =
      ((parseLine lang (n + 1) b line).2.1 ++
        (parseGo lang (n + 1) (parseLine lang (n + 1) b line).1 rest).1,
       (parseLine lang (n + 1) b line).2.2 ++
        (parseGo lang (n + 1) (parseLine lang (n + 1) b line).1 rest).2) := rfl

theorem parseLine_end {lang : Language} {line : List Char}
    (h : containsSub (endString lang) line = true) (n : Nat) (b : SnippetNodeBuilder) :
    parseLine lang n (some b) line = (none, [b.to_node], []) := by
  simp [parseLine, h]

theorem parseLine_content {lang : Language} {line : List Char}
    (h1 : containsSub (endString lang) line = false)
    (h2 : containsSub (ignoreString lang) line = false) (n : Nat) (b : SnippetNodeBuilder) :
    parseLine lang n (some b) line = (some (b.append line), [], []) := by
  simp [parseLine, h1, h2]

theorem parseLine_none_begin {lang : Language} {line : List Char}
    (hb : containsSub (beginString lang) line = true) (n : Nat) :
    parseLine lang n none line =
      (match pySplit (pyStrip line) with
       | _ :: _ :: key :: _ => (some ⟨key, lang, n, []⟩, [], [])
       | _ => (none, [], [missingNameMsg lang n line])) := by
  simp [parseLine, hb]

theorem parseGo_collect (lang : Language) (endLine : List Char)
    (he : containsSub (endString lang) endLine = true) :
    ∀ (ls : List (List Char)),
      (∀ l ∈ ls, containsSub (endString lang) l = false ∧
        containsSub (ignoreString lang) l = false) →
    ∀ (n : Nat) (b : SnippetNodeBuilder),
      parseGo lang n (some b) (ls ++ [endLine]) =
        ([(ls.foldl SnippetNodeBuilder.append b).to_node], []) := by
  intro ls
  induction ls with
  | nil =>
    intro _ n b
    rw [List.nil_append, parseGo_cons, parseLine_end he]
    rfl
  | cons l ls ih =>
    intro hcl n b
    have h1 : containsSub (endString lang) l = false := (hcl l (by simp)).1
    have h2 : containsSub (ignoreString lang) l = false := (hcl l (by simp)).2
    have hrest : ∀ x ∈ ls, containsSub (endString lang) x = false ∧
        containsSub (ignoreString lang) x = false := fun x hx => hcl x (by simp [hx])
    rw [List.cons_append, parseGo_cons, parseLine_content h1 h2]
    rw [ih hrest (n + 1) (b.append l)]
    simp

theorem parseGo_split (lang : Language) :
    ∀ (xs : List (List Char)) (n : Nat) (b : Option SnippetNodeBuilder) (ys : List (List Char)),
    parseGo lang n b (xs ++ ys) =
      ((parseGo lang n b xs).1 ++
        (parseGo lang (n + xs.length) (finalBuilder lang n b xs) ys).1,
       (parseGo lang n b xs).2 ++
        (parseGo lang (n + xs.length) (finalBuilder lang n b xs) ys).2) := by
  intro xs
  induction xs with
  | nil => intro n b ys; simp [parseGo, finalBuilder]
  | cons x xs ih =>
    intro n b ys
    rw [List.cons_append, parseGo_cons, parseGo_cons, ih (n + 1) (parseLine lang (n + 1) b x).1 ys]
    have harith : n + (x :: xs).length = (n + 1) + xs.length := by simp; omega
    rw [harith]
    show _ = (_ ++ _ ++ _, _ ++ _ ++ _)
    rw [List.append_assoc, List.append_assoc]
    rfl

theorem parseLine_no_yield {lang : Language} {line : List Char}
    (h : containsSub (endString lang) line = false)
    (n : Nat) (b : Option SnippetNodeBuilder) : (parseLine lang n b line).2.1 = [] := by
  simp only [parseLine, h, Bool.false_and, Bool.false_eq_true, if_false]
  split
  · rfl
  · split
    · split <;> rfl
    · rfl

theorem parseGo_no_end {lang : Language} {ys : List (List Char)}
    (h : ∀ l ∈ ys, containsSub (endString lang) l = false) :
    ∀ (n : Nat) (b : Option SnippetNodeBuilder), (parseGo lang n b ys).1 = [] := by
  induction ys with
  | nil => intro n b; rfl
  | cons y ys ih =>
    intro n b
    rw [parseGo_cons]
    show (parseLine lang (n + 1) b y).2.1 ++ _ = []
    rw [parseLine_no_yield (h y (by simp)), ih (fun l hl => h l (by simp [hl]))]
    rfl

/-- C1: a stream made of a begin marker whose third whitespace token is
"foo", one or more content lines sharing the leading whitespace of the
first content line (plain lines: no marker substrings, no tabs), and an
end marker, extracts exactly one snippet with key "foo" whose body is
every content line with the width of that common indentation stripped
(and, as the node constructor always does, trailing whitespace removed
per line), with no warnings. -/
theorem extraction_round_trip (lang : Language) (beginLine endLine indent : List Char)
    (t0 : List Char) (ts : List (List Char))
    (hb : containsSub (beginString lang) beginLine = true)
    (htok : ∃ a b rest, pySplit (pyStrip beginLine) = a :: b :: "foo".data :: rest)
    (he : containsSub (endString lang) endLine = true)
    (hind : ∀ c ∈ indent, c = ' ')
    (hhead : t0 = [] ∨ ∃ c cs, t0 = c :: cs ∧ pyIsSpace c = false)
    (hclean : ∀ t ∈ t0 :: ts, containsSub (endString lang) (indent ++ t) = false ∧
      containsSub (ignoreString lang) (indent ++ t) = false ∧ '\t' ∉ indent ++ t) :
    SnippetNodeBuilder.parse lang
        (beginLine :: ((t0 :: ts).map (fun t => indent ++ t)) ++ [endLine]) =
      ([{ key := "foo".data, language := lang.key, language_name := lang.name,
          source_url := some (lang.get_pretty_url (some 1)),
          body := joinNL ((t0 :: ts).map pyRstrip) }], []) := by
  obtain ⟨a, b, rest, heq⟩ := htok
  have hcl : ∀ l ∈ (t0 :: ts).map (fun t => indent ++ t),
      containsSub (endString lang) l = false ∧ containsSub (ignoreString lang) l = false := by
    intro l hl
    obtain ⟨t, ht, rfl⟩ := List.mem_map.1 hl
    exact ⟨(hclean t ht).1, (hclean t ht).2.1⟩
  have hmap : List.map expandtabs8 (List.map (fun t => indent ++ t) (t0 :: ts)) =
      List.map (fun t => indent ++ t) (t0 :: ts) := by
    rw [List.map_congr_left (fun x hx => expandtabs8_id ((by
      obtain ⟨t, ht, rfl⟩ := List.mem_map.1 hx
      exact (hclean t ht).2.2) : '\t' ∉ x))]
    exact List.map_id _
  have hfirst : pyLstrip (indent ++ t0) = t0 := by
    rw [pyLstrip_spaces_append hind, pyLstrip_eq_self hhead]
  have hspaces : (indent ++ t0).length - t0.length = indent.length := by
    simp [List.length_append]
  have hdrop : ∀ t : List Char, (indent ++ t).drop indent.length = t :=
    fun t => List.drop_left indent t
  have hjust : List.map (List.drop indent.length) (List.map (fun t => indent ++ t) ts) = ts := by
    rw [List.map_map]
    have hcomp : ∀ x ∈ ts, (List.drop indent.length ∘ fun t => indent ++ t) x = x :=
      fun x _ => hdrop x
    rw [List.map_congr_left hcomp]
    exact List.map_id _
  show parseGo lang 0 none (beginLine :: (List.map (fun t => indent ++ t) (t0 :: ts) ++ [endLine])) = _
  rw [parseGo_cons, parseLine_none_begin hb, heq]
  dsimp only
  rw [parseGo_collect lang endLine he _ hcl 1 ⟨"foo".data, lang, 1, []⟩]
  rw [foldl_append_lines]
  dsimp only
  rw [List.nil_append, hmap]
  simp only [SnippetNodeBuilder.to_node, List.map_cons, List.nil_append]
  rw [hfirst, hspaces]
  rw [hdrop t0, hjust]
  simp [mkSingleSnippetNode, Option.getD]

/-- Witness for C1 at a concrete input: a Python-commented file with key
"foo" and two 4-space-indented lines. -/
theorem extraction_round_trip_witness :
    SnippetNodeBuilder.parse
        ({ key := "py".data, name := "Python".data, highlight := "python".data,
           line_comment := "#".data, gh_repository := none, gh_branch := none,
           gh_path := none } : Language)
        ("# snippet-start foo".data ::
          (("a = 1".data :: ["b = 2".data]).map (fun t => "    ".data ++ t)) ++
          ["# snippet-end".data]) =
      ([{ key := "foo".data, language := "py".data, language_name := "Python".data,
          source_url := some (Language.get_pretty_url
            { key := "py".data, name := "Python".data, highlight := "python".data,
              line_comment := "#".data, gh_repository := none, gh_branch := none,
              gh_path := none } (some 1)),
          body := joinNL (("a = 1".data :: ["b = 2".data]).map pyRstrip) }], []) :=
  extraction_round_trip _ _ _ _ _ _ (by decide)
    ⟨"#".data, "snippet-start".data, [], by decide⟩ (by decide) (by decide)
    (Or.inr ⟨'a', " = 1".data, by decide, by decide⟩) (by decide)

/-- C7: when no line from the begin marker onwards contains the end
marker, scanning the whole stream yields exactly the snippets of the
part before the begin marker: the region opened by the unterminated
begin marker contributes no snippet (the open builder is discarded). -/
theorem unterminated_discarded (lang : Language) (pre : List (List Char))
    (beginLine : List Char) (rest : List (List Char))
    (hb : containsSub (beginString lang) beginLine = true)
    (hkey : ∃ a b k ks, pySplit (pyStrip beginLine) = a :: b :: k :: ks)
    (hnoend : ∀ l ∈ beginLine :: rest, containsSub (endString lang) l = false) :
    (SnippetNodeBuilder.parse lang (pre ++ beginLine :: rest)).1 =
      (SnippetNodeBuilder.parse lang pre).1 := by
  show (parseGo lang 0 none (pre ++ beginLine :: rest)).1 = (parseGo lang 0 none pre).1
  rw [parseGo_split lang pre 0 none (beginLine :: rest)]
  rw [parseGo_no_end hnoend]
  simp

/-- Witness for C7 at a concrete input: an unterminated snippet region
yields nothing. -/
theorem unterminated_discarded_witness :
    (SnippetNodeBuilder.parse
        ({ key := "py".data, name := "Python".data, highlight := "python".data,
           line_comment := "#".data, gh_repository := none, gh_branch := none,
           gh_path := none } : Language)
        ([] ++ "# snippet-start foo".data :: ["x = 1".data, "y = 2".data])).1 =
      (SnippetNodeBuilder.parse
        ({ key := "py".data, name := "Python".data, highlight := "python".data,
           line_comment := "#".data, gh_repository := none, gh_branch := none,
           gh_path := none } : Language) []).1 :=
  unterminated_discarded _ _ _ _ (by decide)
    ⟨"#".data, "snippet-start".data, "foo".data, [], by decide⟩ (by decide)

/-- C8: a line containing the begin marker but splitting into at most two
whitespace tokens, reached with no active builder, emits exactly the
missing-snippet-name warning, starts no builder, yields no snippet, and
the rest of the stream is scanned exactly as it would have been. -/
theorem malformed_begin_warns (lang : Language) (n : Nat) (bad : List Char)
    (rest : List (List Char))
    (hb : containsSub (beginString lang) bad = true)
    (hlen : (pySplit (pyStrip bad)).length ≤ 2) :
    parseGo lang n none (bad :: rest) =
      ((parseGo lang (n + 1) none rest).1,
        missingNameMsg lang (n + 1) bad :: (parseGo lang (n + 1) none rest).2) := by
  simp only [parseGo, parseLine, Option.isSome_none, Bool.and_false, if_false, hb, if_true]
  match hsp : pySplit (pyStrip bad) with
  | [] => simp
  | [a] => simp
  | [a, b] => simp
  | a :: b :: c :: ks => rw [hsp] at hlen; simp at hlen

/-- Witness for C8 at a concrete input: a begin marker with only two
tokens warns once and scanning continues. -/
theorem malformed_begin_warns_witness :
    parseGo
        ({ key := "py".data, name := "Python".data, highlight := "python".data,
           line_comment := "#".data, gh_repository := none, gh_branch := none,
           gh_path := none } : Language) 0 none ("# snippet-start".data :: ["x = 1".data]) =
      ((parseGo
        ({ key := "py".data, name := "Python".data, highlight := "python".data,
           line_comment := "#".data, gh_repository := none, gh_branch := none,
           gh_path := none } : Language) 1 none ["x = 1".data]).1,
        missingNameMsg
          { key := "py".data, name := "Python".data, highlight := "python".data,
            line_comment := "#".data, gh_repository := none, gh_branch := none,
            gh_path := none } 1 "# snippet-start".data ::
        (parseGo
          ({ key := "py".data, name := "Python".data, highlight := "python".data,
             line_comment := "#".data, gh_repository := none, gh_branch := none,
             gh_path := none } : Language) 1 none ["x = 1".data]).2) :=
  malformed_begin_warns _ 0 _ _ (by decide) (by decide)

/-! Helper lemmas about the resolver. -/

theorem listRemove_nodup {x : List Char} : ∀ {l : List (List Char)}, l.Nodup →
    ∀ {m : List (List Char)}, listRemove x l = some m →
    m = l.filter (fun y => decide (y ≠ x)) ∧ x ∈ l := by
  intro l
  induction l with
  | nil => intro _ m h; simp [listRemove] at h
  | cons y rest ih =>
    intro hnd m h
    by_cases hyx : y = x
    · subst hyx
      rw [listRemove, if_pos rfl] at h
      obtain rfl : rest = m := by injection h
      have hx : y ∉ rest := (List.nodup_cons.1 hnd).1
      constructor
      · simp [List.filter_cons]
        exact (List.filter_eq_self.2 (fun a ha => by
          simp only [Bool.not_eq_true', decide_eq_false_iff_not]
          exact fun e => hx (e ▸ ha))).symm
      · simp
    · rw [listRemove, if_neg hyx] at h
      obtain ⟨m2, hm2, rfl⟩ := Option.map_eq_some'.1 h
      obtain ⟨hfil, hmem⟩ := ih (List.nodup_cons.1 hnd).2 hm2
      constructor
      · rw [List.filter_cons, hfil]
        simp [hyx]
      · exact List.mem_cons_of_mem _ hmem

theorem resolveLoop_error {key : List Char} :
    ∀ (store : List SingleSnippetNode) (missing : List (List Char))
      (acc : List SingleSnippetNode) (e : PyExn),
    resolveLoop key store missing acc = .error e →
    e = .valueError "list.remove(x): x not in list".data := by
  intro store
  induction store with
  | nil => intro missing acc e h; simp [resolveLoop] at h
  | cons s rest ih =>
    intro missing acc e h
    simp only [resolveLoop] at h
    by_cases hk : s.key = key
    · rw [if_pos hk] at h
      cases hrem : listRemove s.language missing with
      | none =>
        rw [hrem] at h
        injection h with he
        exact he.symm
      | some m2 =>
        rw [hrem] at h
        exact ih m2 (acc ++ [s]) e h
    · rw [if_neg hk] at h
      exact ih missing acc e h

theorem resolveLoop_children {key : List Char} :
    ∀ (store : List SingleSnippetNode) (missing : List (List Char))
      (acc c : List SingleSnippetNode) (m : List (List Char)),
    resolveLoop key store missing acc = .ok (c, m) →
    c = acc ++ store.filter (fun s => decide (s.key = key)) := by
  intro store
  induction store with
  | nil =>
    intro missing acc c m h
    simp only [resolveLoop, Except.ok.injEq, Prod.mk.injEq] at h
    simp [← h.1]
  | cons s rest ih =>
    intro missing acc c m h
    simp only [resolveLoop] at h
    by_cases hk : s.key = key
    · rw [if_pos hk] at h
      cases hrem : listRemove s.language missing with
      | none => rw [hrem] at h; simp at h
      | some m2 =>
        rw [hrem] at h
        rw [ih m2 (acc ++ [s]) c m h]
        simp [List.filter_cons, hk]
    · rw [if_neg hk] at h
      rw [ih missing acc c m h]
      simp [List.filter_cons, hk]

theorem resolveLoop_missing {key : List Char} :
    ∀ (store : List SingleSnippetNode) (missing : List (List Char))
      (acc c : List SingleSnippetNode) (m : List (List Char)),
    missing.Nodup →
    resolveLoop key store missing acc = .ok (c, m) →
    m = missing.filter (fun l => decide (¬ ∃ s ∈ store, s.key = key ∧ s.language = l)) := by
  intro store
  induction store with
  | nil =>
    intro missing acc c m _ h
    simp only [resolveLoop, Except.ok.injEq, Prod.mk.injEq] at h
    rw [← h.2]
    symm
    apply List.filter_eq_self.2
    intro a _
    simp
  | cons s rest ih =>
    intro missing acc c m hnd h
    simp only [resolveLoop] at h
    by_cases hk : s.key = key
    · rw [if_pos hk] at h
      cases hrem : listRemove s.language missing with
      | none => rw [hrem] at h; simp at h
      | some m2 =>
        rw [hrem] at h
        obtain ⟨hm2, _⟩ := listRemove_nodup hnd hrem
        have hnd2 : m2.Nodup := by rw [hm2]; exact hnd.filter _
        rw [ih m2 (acc ++ [s]) c m hnd2 h, hm2, List.filter_filter]
        apply List.filter_congr
        intro a _
        rw [← Bool.decide_and, decide_eq_decide]
        constructor
        · rintro ⟨hnotex, hne⟩ ⟨s2, hs2mem, hs2⟩
          rcases List.mem_cons.1 hs2mem with rfl | hs2rest
          · exact hne hs2.2.symm
          · exact hnotex ⟨s2, hs2rest, hs2⟩
        · intro hnot
          constructor
          · rintro ⟨s2, hs2rest, hs2⟩
            exact hnot ⟨s2, List.mem_cons_of_mem _ hs2rest, hs2⟩
          · intro e
            exact hnot ⟨s, List.mem_cons_self s rest, hk, e.symm⟩
    · rw [if_neg hk] at h
      rw [ih missing acc c m hnd h]
      apply List.filter_congr
      intro a _
      rw [decide_eq_decide]
      constructor
      · rintro hnot ⟨s2, hs2mem, hs2⟩
        rcases List.mem_cons.1 hs2mem with rfl | hs2rest
        · exact hk hs2.1
        · exact hnot ⟨s2, hs2rest, hs2⟩
      · rintro hnot ⟨s2, hs2rest, hs2⟩
        exact hnot ⟨s2, List.mem_cons_of_mem _ hs2rest, hs2⟩

theorem resolveLoop_matched {key : List Char} :
    ∀ (store : List SingleSnippetNode) (missing : List (List Char))
      (acc c : List SingleSnippetNode) (m : List (List Char)),
    missing.Nodup →
    resolveLoop key store missing acc = .ok (c, m) →
    ((store.filter (fun s => decide (s.key = key))).map (fun s => s.language)).Nodup ∧
      ∀ l ∈ (store.filter (fun s => decide (s.key = key))).map (fun s => s.language),
        l ∈ missing := by
  intro store
  induction store with
  | nil => intro missing acc c m _ _; simp
  | cons s rest ih =>
    intro missing acc c m hnd h
    simp only [resolveLoop] at h
    by_cases hk : s.key = key
    · rw [if_pos hk] at h
      cases hrem : listRemove s.language missing with
      | none => rw [hrem] at h; simp at h
      | some m2 =>
        rw [hrem] at h
        obtain ⟨hm2, hmem⟩ := listRemove_nodup hnd hrem
        have hnd2 : m2.Nodup := by rw [hm2]; exact hnd.filter _
        obtain ⟨ihnd, ihsub⟩ := ih m2 (acc ++ [s]) c m hnd2 h
        have hnotm2 : s.language ∉ m2 := by
          rw [hm2]
          intro hmem2
          have := (List.mem_filter.1 hmem2).2
          simp at this
        constructor
        · rw [List.filter_cons, if_pos (by simp [hk]), List.map_cons, List.nodup_cons]
          exact ⟨fun hcontra => hnotm2 (ihsub _ hcontra), ihnd⟩
        · intro l hl
          rw [List.filter_cons, if_pos (by simp [hk]), List.map_cons] at hl
          rcases List.mem_cons.1 hl with rfl | hlrest
          · exact hmem
          · have hlm2 : l ∈ m2 := ihsub _ hlrest
            rw [hm2] at hlm2
            exact List.filter_subset' _ hlm2
    · rw [if_neg hk] at h
      obtain ⟨ihnd, ihsub⟩ := ih missing acc c m hnd h
      constructor
      · rw [List.filter_cons, if_neg (by simp [hk])]
        exact ihnd
      · intro l hl
        rw [List.filter_cons, if_neg (by simp [hk])] at hl
        exact ihsub _ hl

/-! Concrete fixtures used by witnesses and counterexamples. -/

/-- A language without a remote source. -/
def goLang : Language :=
  { key := "go".data, name := "Go".data, highlight := "go".data, line_comment := "//".data,
    gh_repository := none, gh_branch := none, gh_path := none }

/-- Another language without a remote source. -/
def rustLang : Language :=
  { key := "rust".data, name := "Rust".data, highlight := "rust".data,
    line_comment := "//".data, gh_repository := none, gh_branch := none, gh_path := none }

/-- An inline snippet for key "ex1" in language go. -/
def ex1Go : SingleSnippetNode :=
  mkSingleSnippetNode "ex1".data goLang ["x := 1".data] none

/-- An inline snippet for key "ex1" in language rust. -/
def ex1Rust : SingleSnippetNode :=
  mkSingleSnippetNode "ex1".data rustLang ["let x = 1;".data] none

/-- A second inline snippet for key "ex1", again in language go. -/
def ex1GoDup : SingleSnippetNode :=
  mkSingleSnippetNode "ex1".data goLang ["y := 2".data] none

/-- A second inline snippet for key "ex1", again in language rust. -/
def ex1RustDup : SingleSnippetNode :=
  mkSingleSnippetNode "ex1".data rustLang ["let y = 2;".data] none

/-- C2: whenever resolution of a display placeholder completes (which by
C10 requires every matching language to appear at most once), the
children appended to the placeholder are exactly the store snippets with
the placeholder key, the missing list is exactly the configured language
keys with no matching snippet, and exactly one warning naming the key
and the missing list is emitted when, and only when, that list is
non-empty — the matched snippets are kept regardless. -/
theorem resolver_completeness (langs : List (List Char)) (store : List SingleSnippetNode)
    (key : List Char) (children : List SingleSnippetNode)
    (missing warns : List (List Char))
    (hnd : langs.Nodup)
    (h : resolve_node langs store key = .ok (children, missing, warns)) :
    children = store.filter (fun s => decide (s.key = key)) ∧
    missing = langs.filter (fun l => decide (¬ ∃ s ∈ store, s.key = key ∧ s.language = l)) ∧
    (missing = [] → warns = []) ∧
    (missing ≠ [] → warns = [missingLangsMsg key missing]) := by
  unfold resolve_node at h
  cases hloop : resolveLoop key store langs [] with
  | error e => rw [hloop] at h; simp at h
  | ok cm =>
    obtain ⟨c2, m2⟩ := cm
    rw [hloop] at h
    simp only [Except.ok.injEq, Prod.mk.injEq] at h
    obtain ⟨hc, hm, hw⟩ := h
    refine ⟨?_, ?_, ?_, ?_⟩
    · rw [← hc]
      simpa using resolveLoop_children store langs [] c2 m2 hloop
    · rw [← hm]
      exact resolveLoop_missing store langs [] c2 m2 hnd hloop
    · intro hmiss
      rw [← hw, hm, hmiss]
      simp
    · intro hmiss
      rw [← hw, hm]
      rw [if_pos (by cases missing with | nil => exact absurd rfl hmiss | cons a l => simp)]

/-- C2 counterexample: on a store where one language appears twice for
the placeholder key, resolution raises the `list.remove` `ValueError`
instead of appending the matching snippets and warning, so the claim
does not hold for every store — only for those on which resolution
completes. -/
theorem resolver_completeness_counterexample :
    resolve_node ["go".data, "rust".data, "py".data] [ex1Rust, ex1RustDup] "ex1".data =
      .error (.valueError "list.remove(x): x not in list".data) := rfl

/-- Witness for C2 at the concrete input of the claim: store snippets for
key "ex1" in go and rust, configured languages go, rust, py. -/
theorem resolver_completeness_witness :
    ([ex1Go, ex1Rust] : List SingleSnippetNode) =
      [ex1Go, ex1Rust].filter (fun s => decide (s.key = "ex1".data)) ∧
    (["py".data] : List (List Char)) =
      ["go".data, "rust".data, "py".data].filter
        (fun l => decide (¬ ∃ s ∈ [ex1Go, ex1Rust], s.key = "ex1".data ∧ s.language = l)) ∧
    ((["py".data] : List (List Char)) = [] →
      [missingLangsMsg "ex1".data ["py".data]] = []) ∧
    ((["py".data] : List (List Char)) ≠ [] →
      [missingLangsMsg "ex1".data ["py".data]] = [missingLangsMsg "ex1".data ["py".data]]) :=
  resolver_completeness ["go".data, "rust".data, "py".data] [ex1Go, ex1Rust] "ex1".data
    [ex1Go, ex1Rust] ["py".data] [missingLangsMsg "ex1".data ["py".data]]
    (by decide) (by rfl)

/-- C10: resolution is not total. Whenever two snippets in the store share
the placeholder key and a language (so the matched languages are not
pairwise distinct), `resolve_snippets` raises the `list.remove`
`ValueError` instead of completing; contrapositively, completion forces
every language to appear at most once among a key's snippets. -/
theorem resolution_not_total (langs : List (List Char)) (store : List SingleSnippetNode)
    (key : List Char)
    (hnd : langs.Nodup)
    (hdup : ¬ ((store.filter (fun s => decide (s.key = key))).map
      (fun s => s.language)).Nodup) :
    resolve_node langs store key =
      .error (.valueError "list.remove(x): x not in list".data) := by
  unfold resolve_node
  cases hloop : resolveLoop key store langs [] with
  | error e =>
    rw [resolveLoop_error store langs [] e hloop]
  | ok cm =>
    obtain ⟨c2, m2⟩ := cm
    exact absurd (resolveLoop_matched store langs [] c2 m2 hnd hloop).1 hdup

/-- Witness for C10 at a concrete input: two go snippets with the same key
make resolution raise. -/
theorem resolution_not_total_witness :
    resolve_node ["go".data] [ex1Go, ex1GoDup] "ex1".data =
      .error (.valueError "list.remove(x): x not in list".data) :=
  resolution_not_total ["go".data] [ex1Go, ex1GoDup] "ex1".data (by decide) (by decide)

/-- C4: initialization raises exactly when the language-list setting is
absent from the configuration; an empty configured list is accepted and
yields an environment with no languages. -/
theorem config_absent_error (cfg : Option (List Language)) :
    ((∃ e, initEnv cfg = .error e) ↔ cfg = none) ∧
    initEnv (some []) = .ok ⟨[], [], [], none⟩ := by
  constructor
  · constructor
    · rintro ⟨e, he⟩
      cases cfg with
      | none => rfl
      | some l => simp [initEnv] at he
    · rintro rfl
      exact ⟨_, rfl⟩
  · rfl

/-- Witness for C4: the absent configuration raises, the empty one does
not. -/
theorem config_absent_error_witness :
    (∃ e, initEnv none = .error e) ∧ initEnv (some []) = .ok ⟨[], [], [], none⟩ :=
  ⟨(config_absent_error none).1.mpr rfl, (config_absent_error (some [])).2⟩

/-! Remote-fetch fixtures. -/

/-- A remote-sourced python language configuration. -/
def pyRemote : Language :=
  { key := "py".data, name := "Python".data, highlight := "python".data,
    line_comment := "#".data, gh_repository := some "org/repo".data,
    gh_branch := some "master".data, gh_path := some "ex.py".data }

/-- A remote-sourced go language configuration. -/
def goRemote : Language :=
  { key := "go".data, name := "Go".data, highlight := "go".data,
    line_comment := "//".data, gh_repository := some "org/repo".data,
    gh_branch := some "master".data, gh_path := some "ex.go".data }

/-- The raw URL of the python remote source. -/
def pyRawUrl : List Char :=
  "https://raw.githubusercontent.com/org/repo/master/ex.py".data

/-- The raw URL of the go remote source. -/
def goRawUrl : List Char :=
  "https://raw.githubusercontent.com/org/repo/master/ex.go".data

/-- A deterministic transport: each remote source holds one snippet with
key "ex1"; anything else is unreachable. -/
def demoFetch (url : List Char) : FetchOutcome :=
  if url = pyRawUrl then
    .success ["# snippet-start ex1".data, "print 1".data, "# snippet-end".data]
  else if url = goRawUrl then
    .success ["// snippet-start ex1".data, "fmt.Println(1)".data, "// snippet-end".data]
  else .urlError none "unreachable".data

/-- The snippet extracted from the python remote source. -/
def pySnip : SingleSnippetNode :=
  mkSingleSnippetNode "ex1".data pyRemote ["print 1".data] (some 1)

/-- The snippet extracted from the go remote source. -/
def goSnip : SingleSnippetNode :=
  mkSingleSnippetNode "ex1".data goRemote ["fmt.Println(1)".data] (some 1)

/-- The environment after initialization with configuration order
[python, go] (note the order). -/
def c3Env0 : BuildEnv :=
  { snippet_all := [], snippet_display := [],
    snippet_languages := [pyRemote, goRemote].foldl (fun d lang => py2DictInsert d lang.key lang) [],
    snippet_pulled := none }

/-- The environment after the pull step on `c3Env0`: the go snippet enters
the store first because the registry dict iterates go (hash slot 0)
before py (hash slot 3). -/
def c3Env1 : BuildEnv :=
  { c3Env0 with snippet_all := [goSnip, pySnip], snippet_pulled := some true }

/-- An environment configured with only the python remote language. -/
def pyEnv0 : BuildEnv :=
  { snippet_all := [], snippet_display := [],
    snippet_languages := py2DictInsert [] "py".data pyRemote, snippet_pulled := none }

/-- `pyEnv0` after its pull step. -/
def pyEnv1 : BuildEnv :=
  { pyEnv0 with snippet_all := [pySnip], snippet_pulled := some true }

/-- The nodes one language contributes during the pull step (empty for a
language that is skipped; also empty, for bookkeeping, on the uncaught
exception that aborts the pull). -/
def remoteNodes (fetch : List Char → FetchOutcome) (lang : Language) :
    List SingleSnippetNode :=
  match pull_single_language fetch lang with
  | .ok r => r.1
  | .error _ => []

theorem pullLangs_nodes (fetch : List Char → FetchOutcome) :
    ∀ (ls : List Language) (ns : List SingleSnippetNode) (ws us : List (List Char)),
    pullLangs fetch ls = .ok (ns, ws, us) →
    ns = (ls.map (remoteNodes fetch)).flatten := by
  intro ls
  induction ls with
  | nil =>
    intro ns ws us h
    simp only [pullLangs, Except.ok.injEq, Prod.mk.injEq] at h
    simp [← h.1]
  | cons lang rest ih =>
    intro ns ws us h
    simp only [pullLangs] at h
    cases h1 : pull_single_language fetch lang with
    | error e => rw [h1] at h; simp at h
    | ok r1 =>
      rw [h1] at h
      cases h2 : pullLangs fetch rest with
      | error e => rw [h2] at h; simp at h
      | ok r2 =>
        obtain ⟨r2a, r2b, r2c⟩ := r2
        rw [h2] at h
        obtain ⟨r1a, r1b, r1c⟩ := r1
        simp only [Except.ok.injEq, Prod.mk.injEq] at h
        rw [← h.1, List.map_cons, List.flatten_cons]
        rw [show remoteNodes fetch lang = r1a from by simp [remoteNodes, h1]]
        rw [ih r2a r2b r2c h2]

/-- C6: the pull step is memoized by the store flag. Whenever one
invocation completes, the flag is set, and any later invocation returns
the environment unchanged, emitting no warning and requesting no URL. -/
theorem fetch_idempotent (fetch : List Char → FetchOutcome) (env env2 : BuildEnv)
    (ws us : List (List Char))
    (h : pull_snippet_content fetch env = .ok (env2, ws, us)) :
    pull_snippet_content fetch env2 = .ok (env2, [], []) ∧
    env2.snippet_pulled = some true := by
  unfold pull_snippet_content at h
  by_cases hp : env.snippet_pulled.getD false
  · rw [if_pos hp] at h
    simp only [Except.ok.injEq, Prod.mk.injEq] at h
    obtain ⟨henv, _, _⟩ := h
    have hsome : env.snippet_pulled = some true := by
      cases he : env.snippet_pulled with
      | none => rw [he] at hp; simp at hp
      | some b => rw [he] at hp; simp at hp; rw [hp]
    constructor
    · rw [← henv]
      unfold pull_snippet_content
      rw [hsome]
      rfl
    · rw [← henv]
      exact hsome
  · rw [if_neg hp] at h
    cases hpl : pullLangs fetch (py2DictValues env.snippet_languages) with
    | error e => rw [hpl] at h; simp at h
    | ok r =>
      obtain ⟨ns, ws2, us2⟩ := r
      rw [hpl] at h
      simp only [Except.ok.injEq, Prod.mk.injEq] at h
      obtain ⟨henv, _, _⟩ := h
      constructor
      · rw [← henv]
        unfold pull_snippet_content
        rfl
      · rw [← henv]

/-- Witness for C6 at a concrete input: pulling the one-language
environment twice fetches once. -/
theorem fetch_idempotent_witness :
    pull_snippet_content demoFetch pyEnv1 = .ok (pyEnv1, [], []) ∧
    pyEnv1.snippet_pulled = some true :=
  fetch_idempotent demoFetch pyEnv0 pyEnv1 [] [pyRawUrl] rfl

/-- C5 (code bug): a caught `URLError` is formatted with `e.code`, which a
plain transport failure does not carry, so a non-HTTP transport failure
raises `AttributeError` and aborts instead of warning and skipping; only
an HTTP-status failure produces the warning-and-skip behaviour the spec
describes for every transport failure. -/
theorem fetch_failure_behaviour :
    pull_single_language (fun _ => .urlError none "getaddrinfo failed".data) pyRemote =
      .error (.attributeError "URLError instance has no attribute code".data) ∧
    pullLangs (fun _ => .urlError none "getaddrinfo failed".data) [pyRemote, goRemote] =
      .error (.attributeError "URLError instance has no attribute code".data) ∧
    pull_single_language (fun _ => .urlError (some 404) "Not Found".data) pyRemote =
      .ok ([], [fetchFailMsg "py".data 404 "Not Found".data], [pyRawUrl]) :=
  ⟨rfl, rfl, rfl⟩

/-- C3 counterexample: with the configured language order [python, go]
(both remote, each contributing one "ex1" snippet), the full pipeline
resolves the placeholder to the go snippet before the python snippet —
the CPython 2 registry dict iterates in hash-slot order (go at slot 0,
py at slot 3), not configuration order, refuting the claimed
"language-configuration order" for remote snippets. -/
def c3Pipeline : Except PyExn (List SingleSnippetNode) :=
  (initEnv (some [pyRemote, goRemote])).bind fun env =>
  (pull_snippet_content demoFetch env).bind fun r =>
  (resolve_node (py2DictKeys r.1.snippet_languages) r.1.snippet_all "ex1".data).map
    fun q => q.1

theorem remote_order_not_config_order :
    c3Pipeline = .ok [goSnip, pySnip] ∧
    pySnip.language = "py".data ∧ goSnip.language = "go".data ∧
    ([goSnip, pySnip] : List SingleSnippetNode) ≠ [pySnip, goSnip] := by
  refine ⟨rfl, rfl, rfl, ?_⟩
  decide

/-- C3 (amended): resolution appends snippets in store-insertion order
(the resolved children are the store filtered by key, order preserved),
and the store after the pull is the inline snippets followed by the
remote snippets grouped per language in the registry dict iteration
order (which is CPython 2 hash order, not necessarily configuration
order), with in-file order inside each language. -/
theorem resolver_store_order (fetch : List Char → FetchOutcome) (env env2 : BuildEnv)
    (ws us : List (List Char)) (key : List Char) (langs : List (List Char))
    (c : List SingleSnippetNode) (m w : List (List Char))
    (hnp : env.snippet_pulled.getD false = false)
    (h : pull_snippet_content fetch env = .ok (env2, ws, us))
    (hr : resolve_node langs env2.snippet_all key = .ok (c, m, w)) :
    env2.snippet_all = env.snippet_all ++
      ((py2DictValues env.snippet_languages).map (remoteNodes fetch)).flatten ∧
    c = env2.snippet_all.filter (fun s => decide (s.key = key)) := by
  unfold pull_snippet_content at h
  rw [hnp] at h
  simp only [Bool.false_eq_true, if_false] at h
  cases hpl : pullLangs fetch (py2DictValues env.snippet_languages) with
  | error e => rw [hpl] at h; simp at h
  | ok r =>
    obtain ⟨ns, ws2, us2⟩ := r
    rw [hpl] at h
    simp only [Except.ok.injEq, Prod.mk.injEq] at h
    obtain ⟨henv, _, _⟩ := h
    constructor
    · rw [← henv]
      show env.snippet_all ++ ns = _
      rw [pullLangs_nodes fetch _ ns ws2 us2 hpl]
    · unfold resolve_node at hr
      cases hloop : resolveLoop key env2.snippet_all langs [] with
      | error e => rw [hloop] at hr; simp at hr
      | ok cm =>
        obtain ⟨c2, m2⟩ := cm
        rw [hloop] at hr
        simp only [Except.ok.injEq, Prod.mk.injEq] at hr
        rw [← hr.1]
        simpa using resolveLoop_children env2.snippet_all langs [] c2 m2 hloop

/-- Witness for C3 at the concrete two-language pipeline. -/
theorem resolver_store_order_witness :
    c3Env1.snippet_all = c3Env0.snippet_all ++
      ((py2DictValues c3Env0.snippet_languages).map (remoteNodes demoFetch)).flatten ∧
    ([goSnip, pySnip] : List SingleSnippetNode) =
      c3Env1.snippet_all.filter (fun s => decide (s.key = "ex1".data)) :=
  resolver_store_order demoFetch c3Env0 c3Env1 [] [goRawUrl, pyRawUrl] "ex1".data
    (py2DictKeys c3Env1.snippet_languages) [goSnip, pySnip] [] [] rfl rfl rfl

/-- Direct-fetch URL template stated from the spec wording, for
comparison against the code derivation. -/
def specRawUrl (repo branch path : List Char) : List Char :=
  "https://raw.githubusercontent.com/".data ++ repo ++ "/".data ++ branch
    ++ "/".data ++ path

/-- Browsable URL template stated from the spec wording. -/
def specPrettyUrl (repo branch path : List Char) : List Char :=
  "https://github.com/".data ++ repo ++ "/blob/".data ++ branch ++ "/".data ++ path

/-- Line-anchor suffix stated from the spec wording. -/
def specLineAnchor (n : Nat) : List Char :=
  "#L".data ++ natChars n

/-- C9 counterexample: line number 0, although provided, is falsy in
Python, so `get_pretty_url(0)` carries no anchor, refuting "anchor
appended whenever a line is provided" at this input. -/
theorem pretty_url_zero_line_no_anchor :
    pyRemote.get_pretty_url (some 0) =
      some (specPrettyUrl "org/repo".data "master".data "ex.py".data) ∧
    pyRemote.get_pretty_url (some 0) ≠
      some (specPrettyUrl "org/repo".data "master".data "ex.py".data ++ specLineAnchor 0) := by
  constructor
  · rfl
  · decide

/-- C9 (amended): without a remote source both URLs are `None`; with the
triple present, `get_raw_url` is the populated direct-fetch template and
`get_pretty_url` is the populated browsable template, anchored exactly
when the provided line number is truthy (nonzero). -/
theorem url_derivation (l : Language) (ln : Option Nat) :
    (l.has_remote_source = false → l.get_raw_url = none ∧ l.get_pretty_url ln = none) ∧
    (∀ repo branch path, l.gh_repository = some repo → l.gh_branch = some branch →
      l.gh_path = some path →
      l.get_raw_url = some (specRawUrl repo branch path) ∧
      l.get_pretty_url ln = some (if ln.getD 0 = 0 then specPrettyUrl repo branch path
        else specPrettyUrl repo branch path ++ specLineAnchor (ln.getD 0))) := by
  constructor
  · intro h
    constructor
    · simp [Language.get_raw_url, h]
    · simp [Language.get_pretty_url, h]
  · intro repo branch path h1 h2 h3
    have hrs : l.has_remote_source = true := by
      simp [Language.has_remote_source, h1, h2, h3]
    constructor
    · simp [Language.get_raw_url, hrs, h1, h2, h3, specRawUrl]
    · by_cases hz : ln.getD 0 = 0
      · simp [Language.get_pretty_url, hrs, h1, h2, h3, hz, specPrettyUrl]
      · simp [Language.get_pretty_url, hrs, h1, h2, h3, hz, specPrettyUrl, specLineAnchor]

/-- Witness for C9 at a concrete input: the demo remote language at line
7. -/
theorem url_derivation_witness :
    pyRemote.get_raw_url = some (specRawUrl "org/repo".data "master".data "ex.py".data) ∧
    pyRemote.get_pretty_url (some 7) =
      some (if (some 7 : Option Nat).getD 0 = 0 then
          specPrettyUrl "org/repo".data "master".data "ex.py".data
        else specPrettyUrl "org/repo".data "master".data "ex.py".data ++
          specLineAnchor ((some 7 : Option Nat).getD 0)) :=
  (url_derivation pyRemote (some 7)).2 "org/repo".data "master".data "ex.py".data rfl rfl rfl

end Snippets
